import Mathlib

/-!
Shallow embedding of `src/a1_ex2.py` (`validate_images`), a batch image
validation pipeline: it walks an input directory tree, validates each file
against six ordered rules, deduplicates by a hash of the decoded pixel
buffer, copies accepted files under zero-padded sequential names, writes a
`labels.csv` row per accepted file and a log line per rejected file.

Modelling choices (each noted at the relevant definition):
* The decoder (PIL) is an external collaborator; an input file carries the
  decoder's answer as an `Option DecodedImage` field (`none` = the file does
  not decode, in which case `PIL.Image.open` / pixel access raises
  `UnidentifiedImageError`/`OSError`, which is *not* a `ValueError`).
* Filesystem side effects (directory creation, log truncation, CSV header)
  are recorded as fields of the run state; the raised-out-of-`validate_images`
  exception path is the `Except.error` branch and carries the state at the
  moment of the raise.
* `os.walk` is an external enumeration capability: the model receives its
  output as a list of directories, each a list of files, in traversal order.
  The code sorts the `files` list of each directory (line 36) but never
  touches the subdirectory order that `os.walk` uses.
* The SHA-256 hex digest of `img.tobytes()` is modelled as the pixel buffer
  itself (a digest is a deterministic function of the buffer; collision
  freedom of SHA-256 is assumed, as the program does).
* Python's `str.isalpha`/`str.lower` are modelled by `Char.isAlpha` /
  `Char.toLower` (faithful on ASCII filenames).
-/

deriving instance DecidableEq for Except

namespace ImageValidation

/-- A decoded image as returned by the decoder adapter (`PIL.Image.open`):
pixel mode string (`img.mode`), dimensions (`img.size`), and the pixel data
(`img.getdata()` / `img.tobytes()`, modelled as one list of pixel values). -/
structure DecodedImage where
  mode : String
  width : Nat
  height : Nat
  pixels : List Nat
deriving DecidableEq, Repr

/-- One input file discovered by the directory walk: filename (`file`),
absolute path (`os.path.abspath(os.path.join(root, file))`), relative path
(`os.path.relpath(file_path, start=input_dir)`), byte size
(`os.path.getsize`), raw file bytes (what `shutil.copy` copies), and the
decoder's verdict on it (`none` when the file is not a decodable image). -/
structure InputFile where
  name : String
  absPath : String
  relPath : String
  size : Nat
  bytes : List Nat
  decoded : Option DecodedImage
deriving DecidableEq, Repr

/-- The exceptions that can escape `validate_images`: the `ValueError`
raised on an invalid input root (line 14), and the
`UnidentifiedImageError`/`OSError` raised by PIL on an undecodable file,
which is not a `ValueError` and hence not caught by the handler at line 87. -/
inductive PyErr where
  | configError
  | decodeError
deriving DecidableEq, Repr

/-- Outcome of the per-file rule chain: accepted (carrying the decoded
image), or rejected with the numeric code `k` carried by `ValueError(k)`. -/
inductive Verdict where
  | accepted (img : DecodedImage)
  | rejected (code : Nat)
deriving DecidableEq, Repr

/-- Rule 1 test, line 42: `file.lower().endswith((".jpg", ".jpeg"))`. -/
def extensionOk (name : String) : Bool :=
  let l := name.data.map Char.toLower
  ".jpg".data.isSuffixOf l || ".jpeg".data.isSuffixOf l

/-- Rule 5 test, lines 59-66: the source branches on `img.mode == "RGB"`
but runs the identical check `len(set(pixels)) == 1` in both branches. -/
def uniformPixels (img : DecodedImage) : Bool :=
  if img.mode == "RGB" then img.pixels.dedup.length == 1
  else img.pixels.dedup.length == 1

/-- Line 69: `hashlib.sha256(img.tobytes()).hexdigest()`. The digest is a
deterministic function of the raw pixel buffer only; it is modelled as the
buffer itself (SHA-256 collision freedom assumed). -/
def contentHash (img : DecodedImage) : List Nat := img.pixels

/-- The rule chain of lines 42-72 for one file, against the current set of
already-seen hashes. Rules 1-6 raise `ValueError(1)`..`ValueError(6)` in
order, each short-circuiting the rest; opening an undecodable file raises a
non-`ValueError` (`Except.error .decodeError`). The rule-6 insertion into
the dedup set is performed by the caller on acceptance, which is
indistinguishable from the source's check-then-insert at lines 70-72
because nothing can fail in between in the model. -/
def evalFile (hashes : List (List Nat)) (f : InputFile) : Except PyErr Verdict :=
  if !extensionOk f.name then .ok (.rejected 1)
  else if f.size > 250000 then .ok (.rejected 2)
  else
    match f.decoded with
    | none => .error .decodeError
    | some img =>
      if !(img.mode == "RGB" || img.mode == "L") then .ok (.rejected 3)
      else if img.width < 100 || img.height < 100 then .ok (.rejected 4)
      else if uniformPixels img then .ok (.rejected 5)
      else if contentHash img ∈ hashes then .ok (.rejected 6)
      else .ok (.accepted img)

/-- Each rule's failure condition in isolation (independent of the order in
which the source evaluates them); rule `k` on a file the decoder cannot
read is not observable as a reason in the source, so rules 3-6 are stated
for decodable files. Used to state first-failure-wins. -/
def ruleFails (hashes : List (List Nat)) (k : Nat) (f : InputFile) : Bool :=
  match k with
  | 1 => !extensionOk f.name
  | 2 => decide (f.size > 250000)
  | 3 =>
    match f.decoded with
    | some img => !(img.mode == "RGB" || img.mode == "L")
    | none => false
  | 4 =>
    match f.decoded with
    | some img => decide (img.width < 100) || decide (img.height < 100)
    | none => false
  | 5 =>
    match f.decoded with
    | some img => uniformPixels img
    | none => false
  | 6 =>
    match f.decoded with
    | some img => decide (contentHash img ∈ hashes)
    | none => false
  | _ => false

/-- `format(n, "0{w}d")`: decimal representation of `n`, left-padded with
zeros to width `w` (line 75 uses the default formatter `"07d"`). -/
def zpad (w n : Nat) : String :=
  String.mk (List.replicate (w - (Nat.repr n).length) '0') ++ Nat.repr n

/-- Output filename for the `i`-th accepted image (line 75):
zero-padded index plus the fixed `.jpg` extension. -/
def outName (w i : Nat) : String := zpad w i ++ ".jpg"

/-- `file.split(".")[0]`: the portion of the filename before the first dot
(the whole name when it has no dot). -/
def stem (name : String) : String :=
  String.mk (name.data.takeWhile (fun c => c != '.'))

/-- Label derivation, lines 80-82:
`"".join([i for i in file.split(".")[0] if i.isalpha()]).lower()`. -/
def label (name : String) : String :=
  String.mk (((stem name).data.filter Char.isAlpha).map Char.toLower)

/-- Log line written for a rejected file, line 90:
`f"{rel_path},{e.args[0]}"` (the trailing newline is left implicit; the
log is modelled as the list of its lines). -/
def logLine (f : InputFile) (code : Nat) : String :=
  f.relPath ++ "," ++ Nat.repr code

/-- The observable state of one run: the three preparation side effects
(output directory creation at lines 17-18, log truncation at lines 21-23,
CSV header at line 33), the accepted counter, the dedup set (as the list of
inserted hashes, in insertion order), the log lines, the output files
(name, copied bytes), the `labels.csv` rows (name, label), and — as a ghost
trace that adds no behaviour — the accepted source files in order. -/
structure RunState where
  outputDirPrepared : Bool
  logFileReset : Bool
  csvHeaderWritten : Bool
  count : Nat
  hashes : List (List Nat)
  log : List String
  outputs : List (String × List Nat)
  rows : List (String × String)
  acceptedFiles : List InputFile
deriving DecidableEq, Repr

/-- State before `validate_images` has done anything. -/
def initState : RunState :=
  { outputDirPrepared := false, logFileReset := false, csvHeaderWritten := false
    count := 0, hashes := [], log := [], outputs := [], rows := [], acceptedFiles := [] }

/-- The body of the per-file loop, lines 40-90: run the rule chain; on a
`ValueError(k)` append one log line; on acceptance insert the hash, copy
the bytes under the next sequential name, append the CSV row and increment
the counter; a non-`ValueError` (decode failure) propagates, carrying the
state as it was when the exception was raised. -/
def processFile (w : Nat) (s : RunState) (f : InputFile) : Except (PyErr × RunState) RunState :=
  match evalFile s.hashes f with
  | .error e => .error (e, s)
  | .ok (.rejected k) => .ok { s with log := s.log ++ [logLine f k] }
  | .ok (.accepted img) =>
    .ok { s with
          hashes := s.hashes ++ [contentHash img]
          outputs := s.outputs ++ [(outName w s.count, f.bytes)]
          rows := s.rows ++ [(outName w s.count, label f.name)]
          acceptedFiles := s.acceptedFiles ++ [f]
          count := s.count + 1 }

/-- Sequential processing of a list of files; an uncaught exception aborts
the remainder of the run. -/
def processFiles (w : Nat) (s : RunState) : List InputFile → Except (PyErr × RunState) RunState
  | [] => .ok s
  | f :: fs =>
    match processFile w s f with
    | .error e => .error e
    | .ok s' => processFiles w s' fs

/-- Python string comparison: lexicographic on code points. Used by
`files.sort(key=...)`, line 36. -/
def strLt : List Char → List Char → Bool
  | [], [] => false
  | [], _ :: _ => true
  | _ :: _, [] => false
  | a :: as, b :: bs =>
    if a.toNat < b.toNat then true
    else if b.toNat < a.toNat then false
    else strLt as bs

/-- The total preorder `files.sort(key=abspath)` sorts by: `a` may come
before `b` iff `b`'s absolute path is not strictly below `a`'s. -/
def pathLe (a b : InputFile) : Prop :=
  strLt b.absPath.data a.absPath.data = false

instance : DecidableRel pathLe := fun a b => by unfold pathLe; infer_instance

/-- Line 36: `files.sort(key=lambda f: os.path.abspath(os.path.join(root, f)))`.
Python's sort is a stable sort by the key; modelled by insertion sort with
the key preorder (extensionally equal on the distinct keys a directory
listing provides). -/
def sortFiles (fs : List InputFile) : List InputFile :=
  List.insertionSort pathLe fs

/-- The whole of `validate_images`, lines 9-92. `inputDirIsDir` is the
result of `os.path.isdir(input_dir)` (line 13); `walk` is what `os.walk`
yields, in traversal order, one file list per directory; `w` is the pad
width of the `formatter` argument (default 7). A `ValueError` on an
invalid root is raised before any side effect; otherwise the output
directory, log file and CSV header are prepared and every directory's file
list is sorted and processed in order. -/
def validate_images (inputDirIsDir : Bool) (walk : List (List InputFile)) (w : Nat) :
    Except (PyErr × RunState) RunState :=
  if !inputDirIsDir then .error (.configError, initState)
  else
    processFiles w
      { initState with outputDirPrepared := true, logFileReset := true, csvHeaderWritten := true }
      ((walk.map sortFiles).flatten)

/-- State of the run after the three preparation steps (lines 17-33) and
before the file loop. -/
def readyState : RunState :=
  { initState with outputDirPrepared := true, logFileReset := true, csvHeaderWritten := true }

/-!  Concrete fixtures used by witnesses and counterexamples. -/

/-- A 120×120 colour image with more than one distinct pixel value. -/
def imgCat : DecodedImage := { mode := "RGB", width := 120, height := 120, pixels := [0, 1, 2] }

/-- A 150×100 grayscale image with more than one distinct pixel value. -/
def imgNum : DecodedImage := { mode := "L", width := 150, height := 100, pixels := [3, 4, 5] }

/-- An image with exactly the pixel buffer of `imgCat` (a re-encoding of the
same picture). -/
def imgCopy : DecodedImage := { mode := "RGB", width := 120, height := 120, pixels := [0, 1, 2] }

/-- A valid input file; its stem `cat1` yields the label `cat`. -/
def fileCat : InputFile :=
  { name := "cat1.jpg", absPath := "/in/cat1.jpg", relPath := "cat1.jpg"
    size := 1000, bytes := [7, 7], decoded := some imgCat }

/-- A valid input file whose stem `123` has no alphabetic characters. -/
def fileNum : InputFile :=
  { name := "123.jpg", absPath := "/in/123.jpg", relPath := "123.jpg"
    size := 2000, bytes := [8], decoded := some imgNum }

/-- A file with the same decoded pixel buffer as `fileCat` but different
file bytes, name and size (a differently-encoded copy of the picture). -/
def fileCopy : InputFile :=
  { name := "copy2.jpeg", absPath := "/in/copy2.jpeg", relPath := "copy2.jpeg"
    size := 999, bytes := [5, 5, 5], decoded := some imgCopy }

/-- A file failing rule 1 (extension) and also rule 2 (size 300001). -/
def filePng : InputFile :=
  { name := "x.png", absPath := "/in/x.png", relPath := "x.png"
    size := 300001, bytes := [1], decoded := none }

/-- A file passing rules 1 and 2 that the decoder cannot read: `.jpg`
extension, 10 bytes, `PIL.Image.open` raises on it. -/
def fileCorrupt : InputFile :=
  { name := "broken.jpg", absPath := "/in/broken.jpg", relPath := "broken.jpg"
    size := 10, bytes := [0], decoded := none }

/-- A file inside subdirectory `a` of the input root. -/
def fileDirA : InputFile :=
  { name := "x.png", absPath := "/in/a/x.png", relPath := "a/x.png"
    size := 5, bytes := [1], decoded := none }

/-- A file inside subdirectory `b` of the input root. -/
def fileDirB : InputFile :=
  { name := "y.png", absPath := "/in/b/y.png", relPath := "b/y.png"
    size := 5, bytes := [2], decoded := none }

/-- Run state after accepting `fileNum` then `fileCat` and rejecting
`filePng` (used to instantiate run-level theorems). -/
def stateTwoAccepted : RunState :=
  { readyState with
    count := 2
    hashes := [[3, 4, 5], [0, 1, 2]]
    log := ["x.png,1"]
    outputs := [("0000000.jpg", [8]), ("0000001.jpg", [7, 7])]
    rows := [("0000000.jpg", ""), ("0000001.jpg", "cat")]
    acceptedFiles := [fileNum, fileCat] }

/-- Run state after accepting exactly `fileCat` from the prepared state. -/
def stateAfterCat : RunState :=
  { readyState with
    count := 1
    hashes := [[0, 1, 2]]
    outputs := [("0000000.jpg", [7, 7])]
    rows := [("0000000.jpg", "cat")]
    acceptedFiles := [fileCat] }

/-- Run state after accepting `fileCat` and rejecting `fileCopy` as a
duplicate. -/
def stateCatThenCopy : RunState :=
  { stateAfterCat with log := ["copy2.jpeg,6"] }

/-!  Properties of the code-point comparison `strLt`. -/

theorem strLt_irrefl : ∀ as : List Char, strLt as as = false := by
  intro as
  induction as with
  | nil => rfl
  | cons a as ih => simp [strLt, ih]

theorem strLt_asymm : ∀ as bs : List Char, strLt as bs = true → strLt bs as = false := by
  intro as
  induction as with
  | nil =>
    intro bs h
    cases bs with
    | nil => simp [strLt] at h
    | cons b bs => simp [strLt]
  | cons a as ih =>
    intro bs h
    cases bs with
    | nil => simp [strLt] at h
    | cons b bs =>
      simp only [strLt] at h ⊢
      by_cases hab : a.toNat < b.toNat
      · have : ¬ b.toNat < a.toNat := by omega
        simp [hab, this]
      · by_cases hba : b.toNat < a.toNat
        · simp [hab, hba] at h
        · simp only [hab, hba, if_false] at h ⊢
          exact ih bs h

theorem strLt_trans :
    ∀ as bs cs : List Char, strLt as bs = true → strLt bs cs = true → strLt as cs = true := by
  intro as
  induction as with
  | nil =>
    intro bs cs h1 h2
    cases cs with
    | nil =>
      cases bs with
      | nil => simp [strLt] at h1
      | cons b bs => simp [strLt] at h2
    | cons c cs => simp [strLt]
  | cons a as ih =>
    intro bs cs h1 h2
    cases bs with
    | nil => simp [strLt] at h1
    | cons b bs =>
      cases cs with
      | nil => simp [strLt] at h2
      | cons c cs =>
        simp only [strLt] at h1 h2 ⊢
        by_cases hab : a.toNat < b.toNat
        · by_cases hbc : b.toNat < c.toNat
          · have : a.toNat < c.toNat := by omega
            simp [this]
          · by_cases hcb : c.toNat < b.toNat
            · simp [hbc, hcb] at h2
            · have : a.toNat < c.toNat := by omega
              simp [this]
        · by_cases hba : b.toNat < a.toNat
          · simp [hab, hba] at h1
          · by_cases hbc : b.toNat < c.toNat
            · have : a.toNat < c.toNat := by omega
              simp [this]
            · by_cases hcb : c.toNat < b.toNat
              · simp [hbc, hcb] at h2
              · have hac : ¬ a.toNat < c.toNat := by omega
                have hca : ¬ c.toNat < a.toNat := by omega
                simp only [hab, hba, if_false] at h1
                simp only [hbc, hcb, if_false] at h2
                simp only [hac, hca, if_false]
                exact ih bs cs h1 h2

theorem char_toNat_inj {a b : Char} (h : a.toNat = b.toNat) : a = b := by
  rw [← Char.ofNat_toNat a, ← Char.ofNat_toNat b, h]

theorem strLt_connex :
    ∀ as bs : List Char, as ≠ bs → strLt as bs = true ∨ strLt bs as = true := by
  intro as
  induction as with
  | nil =>
    intro bs h
    cases bs with
    | nil => exact absurd rfl h
    | cons b bs => left; simp [strLt]
  | cons a as ih =>
    intro bs h
    cases bs with
    | nil => right; simp [strLt]
    | cons b bs =>
      by_cases hab : a.toNat < b.toNat
      · left; simp [strLt, hab]
      · by_cases hba : b.toNat < a.toNat
        · right; simp [strLt, hba]
        · have hEq : a = b := char_toNat_inj (by omega)
          subst hEq
          have htl : as ≠ bs := fun hc => h (by rw [hc])
          rcases ih bs htl with h' | h'
          · left; simp [strLt, hab, hba, h']
          · right; simp [strLt, hab, hba, h']

instance : IsTotal InputFile pathLe := by
  constructor
  intro a b
  unfold pathLe
  by_cases h : strLt a.absPath.data b.absPath.data = true
  · left
    exact strLt_asymm _ _ h
  · right
    simpa using h

instance : IsTrans InputFile pathLe := by
  constructor
  intro a b c hab hbc
  unfold pathLe at hab hbc ⊢
  by_cases hca : strLt c.absPath.data a.absPath.data = true
  · by_cases heq : a.absPath.data = b.absPath.data
    · rw [← heq] at hbc
      rw [hca] at hbc
      exact absurd hbc (by simp)
    · rcases strLt_connex _ _ heq with h' | h'
      · have := strLt_trans _ _ _ hca h'
        rw [this] at hbc
        exact absurd hbc (by simp)
      · rw [h'] at hab
        exact absurd hab (by simp)
  · simpa using hca

/-- The strict key order underlying `pathLe`. -/
def pathLt (a b : InputFile) : Prop :=
  strLt a.absPath.data b.absPath.data = true

instance : IsAntisymm InputFile pathLt := by
  constructor
  intro a b hab hba
  unfold pathLt at hab hba
  rw [strLt_asymm _ _ hab] at hba
  exact absurd hba (by simp)

/-- Two listings of one directory that are permutations of each other with
pairwise-distinct absolute paths sort identically under the key sort of
line 36. -/
theorem sortFiles_eq_of_perm (l1 l2 : List InputFile) (hp : l1.Perm l2)
    (hnd : (l1.map (fun f => f.absPath)).Nodup) : sortFiles l1 = sortFiles l2 := by
  have hs1 : List.Sorted pathLe (sortFiles l1) := List.sorted_insertionSort pathLe l1
  have hs2 : List.Sorted pathLe (sortFiles l2) := List.sorted_insertionSort pathLe l2
  have hperm1 : (sortFiles l1).Perm l1 := List.perm_insertionSort pathLe l1
  have hperm2 : (sortFiles l2).Perm l2 := List.perm_insertionSort pathLe l2
  have hperm : (sortFiles l1).Perm (sortFiles l2) :=
    hperm1.trans (hp.trans hperm2.symm)
  have hndKeys : ∀ l : List InputFile, (l.map (fun f => f.absPath)).Nodup →
      List.Pairwise (fun a b : InputFile => a.absPath ≠ b.absPath) l := by
    intro l h
    exact List.pairwise_map.mp h
  have strict : ∀ l : List InputFile, List.Sorted pathLe l →
      List.Pairwise (fun a b : InputFile => a.absPath ≠ b.absPath) l →
      List.Sorted pathLt l := by
    intro l hsort hne
    refine (hsort.and hne).imp ?_
    intro a b hab
    obtain ⟨hle, hneq⟩ := hab
    unfold pathLe at hle
    unfold pathLt
    have : a.absPath.data ≠ b.absPath.data := by
      intro hc
      exact hneq (String.ext hc)
    rcases strLt_connex _ _ this with h' | h'
    · exact h'
    · rw [h'] at hle
      exact absurd hle (by simp)
  have hnd1 : ((sortFiles l1).map (fun f => f.absPath)).Nodup := by
    have : ((sortFiles l1).map (fun f => f.absPath)).Perm (l1.map (fun f => f.absPath)) :=
      hperm1.map _
    exact this.nodup_iff.mpr hnd
  have hnd2 : ((sortFiles l2).map (fun f => f.absPath)).Nodup := by
    have hnd' : (l2.map (fun f => f.absPath)).Nodup :=
      ((hp.map (fun f => f.absPath)).nodup_iff).mp hnd
    have : ((sortFiles l2).map (fun f => f.absPath)).Perm (l2.map (fun f => f.absPath)) :=
      hperm2.map _
    exact this.nodup_iff.mpr hnd'
  exact List.eq_of_perm_of_sorted hperm
    (strict _ hs1 (hndKeys _ hnd1)) (strict _ hs2 (hndKeys _ hnd2))

/-!  Inversion of the rule chain and preservation of the run invariant. -/

/-- A file the rule chain accepts decodes to the accepted image and its
content hash was not yet in the dedup set. -/
theorem evalFile_accepted_inv (hashes : List (List Nat)) (f : InputFile) (img : DecodedImage)
    (h : evalFile hashes f = .ok (.accepted img)) :
    f.decoded = some img ∧ contentHash img ∉ hashes := by
  unfold evalFile at h
  split at h
  · simp at h
  split at h
  · simp at h
  split at h
  · simp at h
  rename_i img' hdec
  split at h
  · simp at h
  split at h
  · simp at h
  split at h
  · simp at h
  split at h
  · simp at h
  rename_i hmem
  injection h with h
  injection h with h
  subst h
  exact ⟨hdec, hmem⟩

/-- The properties of the run state that hold before the loop and are
preserved by every processed file: output names are exactly the zero-padded
indices `0..count-1`, one CSV row and one output file and one dedup-set
entry per accepted file, the dedup entries are pairwise distinct, and the
`i`-th row's label is derived from the `i`-th accepted file's name. -/
def Inv (w : Nat) (s : RunState) : Prop :=
  s.outputs.map Prod.fst = (List.range s.count).map (outName w) ∧
  s.outputs.length = s.count ∧
  s.rows.length = s.count ∧
  s.acceptedFiles.length = s.count ∧
  s.hashes.length = s.count ∧
  s.hashes.Nodup ∧
  s.rows.map Prod.snd = s.acceptedFiles.map (fun f => label f.name)

theorem inv_initState (w : Nat) : Inv w initState := by
  refine ⟨?_, rfl, rfl, rfl, rfl, ?_, rfl⟩ <;> simp [initState]

theorem inv_readyState (w : Nat) : Inv w readyState := by
  refine ⟨?_, rfl, rfl, rfl, rfl, ?_, rfl⟩ <;> simp [readyState, initState]

theorem processFile_inv (w : Nat) (s : RunState) (f : InputFile) (s' : RunState)
    (h : processFile w s f = .ok s') (hs : Inv w s) : Inv w s' := by
  obtain ⟨h1, h2, h3, h4, h5, h6, h7⟩ := hs
  unfold processFile at h
  cases hev : evalFile s.hashes f with
  | error e => rw [hev] at h; simp at h
  | ok v =>
    rw [hev] at h
    cases v with
    | rejected k =>
      simp only [Except.ok.injEq] at h
      subst h
      exact ⟨h1, h2, h3, h4, h5, h6, h7⟩
    | accepted img =>
      obtain ⟨hdec, hnotmem⟩ := evalFile_accepted_inv s.hashes f img hev
      simp only [Except.ok.injEq] at h
      subst h
      refine ⟨?_, ?_, ?_, ?_, ?_, ?_, ?_⟩
      · simp only [List.map_append, h1, List.range_succ, List.map_cons, List.map_nil]
      · simp [h2]
      · simp [h3]
      · simp [h4]
      · simp [h5]
      · rw [List.nodup_append]
        refine ⟨h6, List.nodup_singleton _, ?_⟩
        intro x hx hx'
        simp only [List.mem_singleton] at hx'
        subst hx'
        exact hnotmem hx
      · simp only [List.map_append, h7, List.map_cons, List.map_nil]

theorem processFiles_inv (w : Nat) :
    ∀ (fs : List InputFile) (s s' : RunState),
      processFiles w s fs = .ok s' → Inv w s → Inv w s' := by
  intro fs
  induction fs with
  | nil =>
    intro s s' h hs
    simp only [processFiles, Except.ok.injEq] at h
    subst h
    exact hs
  | cons f fs ih =>
    intro s s' h hs
    unfold processFiles at h
    cases hstep : processFile w s f with
    | error e => rw [hstep] at h; simp at h
    | ok s1 =>
      rw [hstep] at h
      exact ih s1 s' h (processFile_inv w s f s1 hstep hs)

/-- Each successfully handled file contributes exactly one log line or one
counted acceptance, never both and never neither. -/
theorem processFile_accounting (w : Nat) (s : RunState) (f : InputFile) (s' : RunState)
    (h : processFile w s f = .ok s') :
    s'.log.length + s'.count = s.log.length + s.count + 1 := by
  unfold processFile at h
  cases hev : evalFile s.hashes f with
  | error e => rw [hev] at h; simp at h
  | ok v =>
    rw [hev] at h
    cases v with
    | rejected k =>
      simp only [Except.ok.injEq] at h
      subst h
      simp only [List.length_append, List.length_singleton]
      omega
    | accepted img =>
      simp only [Except.ok.injEq] at h
      subst h
      simp only []
      omega

theorem processFiles_accounting (w : Nat) :
    ∀ (fs : List InputFile) (s s' : RunState),
      processFiles w s fs = .ok s' →
      s'.log.length + s'.count = s.log.length + s.count + fs.length := by
  intro fs
  induction fs with
  | nil =>
    intro s s' h
    simp only [processFiles, Except.ok.injEq] at h
    subst h
    simp
  | cons f fs ih =>
    intro s s' h
    unfold processFiles at h
    cases hstep : processFile w s f with
    | error e => rw [hstep] at h; simp at h
    | ok s1 =>
      rw [hstep] at h
      have := ih s1 s' h
      have := processFile_accounting w s f s1 hstep
      simp only [List.length_cons]
      omega

/-- The dedup set only ever grows during a run. -/
theorem processFile_hashes_grow (w : Nat) (s : RunState) (f : InputFile) (s' : RunState)
    (h : processFile w s f = .ok s') : s.hashes <+: s'.hashes := by
  unfold processFile at h
  cases hev : evalFile s.hashes f with
  | error e => rw [hev] at h; simp at h
  | ok v =>
    rw [hev] at h
    cases v with
    | rejected k =>
      simp only [Except.ok.injEq] at h
      subst h
      exact List.prefix_rfl
    | accepted img =>
      simp only [Except.ok.injEq] at h
      subst h
      exact List.prefix_append _ _

theorem processFiles_hashes_grow (w : Nat) :
    ∀ (fs : List InputFile) (s s' : RunState),
      processFiles w s fs = .ok s' → s.hashes <+: s'.hashes := by
  intro fs
  induction fs with
  | nil =>
    intro s s' h
    simp only [processFiles, Except.ok.injEq] at h
    subst h
    exact List.prefix_rfl
  | cons f fs ih =>
    intro s s' h
    unfold processFiles at h
    cases hstep : processFile w s f with
    | error e => rw [hstep] at h; simp at h
    | ok s1 =>
      rw [hstep] at h
      exact (processFile_hashes_grow w s f s1 hstep).trans (ih s1 s' h)

/-- A run that returns normally passed the input-root check and is the
prepared-state loop over the per-directory sorted file lists. -/
theorem validate_images_ok_inv (b : Bool) (walk : List (List InputFile)) (w : Nat)
    (s : RunState) (h : validate_images b walk w = .ok s) :
    b = true ∧ processFiles w readyState ((walk.map sortFiles).flatten) = .ok s := by
  cases b with
  | false => simp [validate_images] at h
  | true =>
    refine ⟨rfl, ?_⟩
    simpa [validate_images, readyState] using h

/-- Per-step preservation of the dedup-index bookkeeping alone: a rejected
file leaves the set untouched, an accepted file appends its (fresh) hash. -/
theorem processFile_hash_step (w : Nat) (s : RunState) (f : InputFile) (s' : RunState)
    (h : processFile w s f = .ok s')
    (hlen : s.hashes.length = s.count) (hnd : s.hashes.Nodup) :
    s'.hashes.length = s'.count ∧ s'.hashes.Nodup := by
  unfold processFile at h
  cases hev : evalFile s.hashes f with
  | error e => rw [hev] at h; simp at h
  | ok v =>
    rw [hev] at h
    cases v with
    | rejected k =>
      simp only [Except.ok.injEq] at h
      subst h
      exact ⟨hlen, hnd⟩
    | accepted img =>
      obtain ⟨-, hnotmem⟩ := evalFile_accepted_inv s.hashes f img hev
      simp only [Except.ok.injEq] at h
      subst h
      constructor
      · simp [hlen]
      · rw [List.nodup_append]
        refine ⟨hnd, List.nodup_singleton _, ?_⟩
        intro x hx hx'
        simp only [List.mem_singleton] at hx'
        subst hx'
        exact hnotmem hx

/-!  The ten claims. -/

/-- Claim C1 (code_bug evidence): a file with a valid `.jpg` extension and
admissible size whose contents the decoder cannot read makes the whole run
abort. `PIL.Image.open` raises `UnidentifiedImageError`, a subclass of
`OSError`, which the handler `except ValueError` at line 87 does not catch,
so — contrary to the claim and to the source's own comment at line 51
("Rule 3: Validate image can be read") — the decode failure is not
converted into a rejection reason, nothing is logged for the file, and the
exception propagates out of `validate_images`. -/
theorem undecodable_file_aborts_run :
    validate_images true [[fileCorrupt]] 7 = .error (.decodeError, readyState) ∧
    readyState.log = [] := by
  exact ⟨by decide, rfl⟩

/-- Claim C2: the six rules are evaluated in order 1..6 and the first
failing rule's numeric identifier becomes the rejection reason: whenever
the rule chain rejects a file with reason `j`, rule `j` fails on that file
and no rule `k < j` does, even if some later rule would also fail. -/
theorem rules_first_failure_wins (hashes : List (List Nat)) (f : InputFile) (j : Nat)
    (h : evalFile hashes f = .ok (.rejected j)) :
    ruleFails hashes j f = true ∧
    ((List.range j).all fun k => !ruleFails hashes k f) = true := by
  unfold evalFile at h
  split at h
  case isTrue hc1 =>
    injection h with h
    injection h with h
    subst h
    refine ⟨by simp [ruleFails, hc1], ?_⟩
    simp only [List.all_eq_true]
    intro k hk
    simp only [List.mem_range] at hk
    interval_cases k
    · simp [ruleFails]
  case isFalse hc1 =>
    split at h
    case isTrue hc2 =>
      injection h with h
      injection h with h
      subst h
      refine ⟨by simp [ruleFails, hc2], ?_⟩
      simp only [List.all_eq_true]
      intro k hk
      simp only [List.mem_range] at hk
      simp only [Bool.not_eq_true] at hc1
      interval_cases k
      · simp [ruleFails]
      · simp [ruleFails, hc1]
    case isFalse hc2 =>
      split at h
      case h_1 hdec => simp at h
      case h_2 img hdec =>
        simp only [Bool.not_eq_true] at hc1
        split at h
        case isTrue hc3 =>
          injection h with h
          injection h with h
          subst h
          refine ⟨by simp [ruleFails, hdec, hc3], ?_⟩
          simp only [List.all_eq_true]
          intro k hk
          simp only [List.mem_range] at hk
          interval_cases k
          · simp [ruleFails]
          · simp [ruleFails, hc1]
          · simp [ruleFails, hc2]
        case isFalse hc3 =>
          simp only [Bool.not_eq_true] at hc3
          split at h
          case isTrue hc4 =>
            injection h with h
            injection h with h
            subst h
            refine ⟨by simp [ruleFails, hdec, hc4], ?_⟩
            simp only [List.all_eq_true]
            intro k hk
            simp only [List.mem_range] at hk
            interval_cases k
            · simp [ruleFails]
            · simp [ruleFails, hc1]
            · simp [ruleFails, hc2]
            · simp [ruleFails, hdec, hc3]
          case isFalse hc4 =>
            split at h
            case isTrue hc5 =>
              injection h with h
              injection h with h
              subst h
              refine ⟨by simp [ruleFails, hdec, hc5], ?_⟩
              simp only [List.all_eq_true]
              intro k hk
              simp only [List.mem_range] at hk
              interval_cases k
              · simp [ruleFails]
              · simp [ruleFails, hc1]
              · simp [ruleFails, hc2]
              · simp [ruleFails, hdec, hc3]
              · simp only [ruleFails, hdec]
                simpa using hc4
            case isFalse hc5 =>
              split at h
              case isTrue hc6 =>
                injection h with h
                injection h with h
                subst h
                refine ⟨by simp [ruleFails, hdec, hc6], ?_⟩
                simp only [List.all_eq_true]
                intro k hk
                simp only [List.mem_range] at hk
                interval_cases k
                · simp [ruleFails]
                · simp [ruleFails, hc1]
                · simp [ruleFails, hc2]
                · simp [ruleFails, hdec, hc3]
                · simp only [ruleFails, hdec]
                  simpa using hc4
                · simp only [ruleFails, hdec]
                  simpa using hc5
              case isFalse hc6 =>
                simp at h

/-- Witness for C2 on a concrete file that fails both rule 1 (extension
`.png`) and rule 2 (size 300001): it is rejected with reason 1, rule 1
fails on it and no earlier rule does. -/
theorem rules_first_failure_wins_witness :
    evalFile [] filePng = .ok (.rejected 1) ∧
    (ruleFails [] 1 filePng = true ∧
      ((List.range 1).all fun k => !ruleFails [] k filePng) = true) :=
  ⟨by decide, rules_first_failure_wins [] filePng 1 (by decide)⟩

/-- Claim C3: in any completed run the output filenames, in acceptance
order, are exactly the zero-padded indices `0..acceptedCount-1` (so the
`N`-th accepted file gets index `N-1`, with no gaps or repeats), and the
accepted count equals both the number of `labels.csv` rows and the number
of output image files. -/
theorem outputs_sequential_zero_padded (b : Bool) (walk : List (List InputFile)) (w : Nat)
    (s : RunState) (h : validate_images b walk w = .ok s) :
    s.outputs.map Prod.fst = (List.range s.count).map (outName w) ∧
    s.outputs.length = s.count ∧
    s.rows.length = s.count := by
  obtain ⟨-, hrun⟩ := validate_images_ok_inv b walk w s h
  obtain ⟨h1, h2, h3, -, -, -, -⟩ := processFiles_inv w _ _ _ hrun (inv_readyState w)
  exact ⟨h1, h2, h3⟩

/-- Witness for C3: a run with two accepted files and one rejected file
produces outputs `0000000.jpg`, `0000001.jpg` and matching counts. -/
theorem outputs_sequential_zero_padded_witness :
    validate_images true [[fileNum, fileCat], [filePng]] 7 = .ok stateTwoAccepted ∧
    (stateTwoAccepted.outputs.map Prod.fst =
        (List.range stateTwoAccepted.count).map (outName 7) ∧
      stateTwoAccepted.outputs.length = stateTwoAccepted.count ∧
      stateTwoAccepted.rows.length = stateTwoAccepted.count) :=
  ⟨by decide, outputs_sequential_zero_padded true [[fileNum, fileCat], [filePng]] 7
    stateTwoAccepted (by decide)⟩

/-- Claim C4, counterexample: the claim promises identical results for any
two runs over the same set of input files "regardless of the order in which
the filesystem lists entries". The code sorts only the `files` list of each
directory (line 36); the order in which `os.walk` yields the directories
themselves is the filesystem's listing order and is not sorted (the walk's
`dirs` list is ignored at line 35). Two walks over the same input tree —
one subdirectory holding `a/x.png`, another holding `b/y.png` — that differ
only in which subdirectory is listed first produce different runs (the
rejection log lines appear in a different order). -/
theorem walk_order_affects_result :
    validate_images true [[fileDirA], [fileDirB]] 7 ≠
      validate_images true [[fileDirB], [fileDirA]] 7 := by
  decide

/-- Claim C4, amended: determinism holds per directory. If two walks visit
the same directories in the same order and differ only in how each
directory's files are listed (any permutation; absolute paths within a
directory are distinct), the runs are identical, because each directory's
file list is sorted by absolute path before iterating. -/
theorem per_directory_listing_order_irrelevant (b : Bool)
    (walk1 walk2 : List (List InputFile)) (w : Nat)
    (h : List.Forall₂
      (fun d1 d2 => d1.Perm d2 ∧ (d1.map (fun f => f.absPath)).Nodup) walk1 walk2) :
    validate_images b walk1 w = validate_images b walk2 w := by
  have hmap : walk1.map sortFiles = walk2.map sortFiles := by
    induction h with
    | nil => rfl
    | cons hd htl ih =>
      obtain ⟨hperm, hnd⟩ := hd
      simp only [List.map_cons]
      rw [sortFiles_eq_of_perm _ _ hperm hnd, ih]
  unfold validate_images
  rw [hmap]

/-- Witness for the amended C4: the two listing orders of one directory
holding `fileNum` and `fileCat` yield the same run. -/
theorem per_directory_listing_order_irrelevant_witness :
    List.Forall₂ (fun d1 d2 => d1.Perm d2 ∧ (d1.map (fun f => f.absPath)).Nodup)
      [[fileNum, fileCat]] [[fileCat, fileNum]] ∧
    validate_images true [[fileNum, fileCat]] 7 =
      validate_images true [[fileCat, fileNum]] 7 :=
  ⟨List.Forall₂.cons ⟨by decide, by decide⟩ List.Forall₂.nil,
    per_directory_listing_order_irrelevant true [[fileNum, fileCat]] [[fileCat, fileNum]] 7
      (List.Forall₂.cons ⟨by decide, by decide⟩ List.Forall₂.nil)⟩

/-- Claim C5, counterexample: the recorded reason is not the rule
identifier string of §4.2. A file whose name does not end in `.jpg`/`.jpeg`
is logged as `relativePath,1` — the numeric code carried by
`ValueError(1)` at line 43 and written via `e.args[0]` at line 90 — not as
`relativePath,invalid extension`. -/
theorem log_reason_is_numeric_counterexample :
    validate_images true [[filePng]] 7 = .ok { readyState with log := ["x.png,1"] } ∧
    "x.png,1" ≠ "x.png,invalid extension" := by
  exact ⟨by decide, by decide⟩

/-- Claim C5, amended: for every rejected file exactly one line
`relativePath,reasonCode` is appended to the log, in processing order,
where the recorded reason code is the failed rule's 1-based numeric index
(printed in decimal), e.g. a filename not ending case-insensitively in
`.jpg`/`.jpeg` yields the line `relativePath,1`. -/
theorem rejection_appends_one_numeric_log_line (w : Nat) (s : RunState) (f : InputFile)
    (k : Nat) (hrej : evalFile s.hashes f = .ok (.rejected k)) :
    processFile w s f = .ok { s with log := s.log ++ [f.relPath ++ "," ++ Nat.repr k] } := by
  unfold processFile
  rw [hrej]
  rfl

/-- Witness for the amended C5: rejecting `x.png` from the prepared state
appends exactly the line `x.png,1`. -/
theorem rejection_appends_one_numeric_log_line_witness :
    evalFile readyState.hashes filePng = .ok (.rejected 1) ∧
    processFile 7 readyState filePng =
      .ok { readyState with
            log := readyState.log ++ [filePng.relPath ++ "," ++ Nat.repr 1] } :=
  ⟨by decide, rejection_appends_one_numeric_log_line 7 readyState filePng 1 (by decide)⟩

/-- Claim C6: the dedup hash is a function of the decoded pixel buffer
only, not of the file bytes. If an accepted file and a later file decode to
identical pixel buffers, the later file — whatever its name, size or
encoded bytes, provided it passes rules 1-5 — is rejected as a duplicate
(reason 6). -/
theorem pixel_identical_copy_rejected_as_duplicate (w : Nat) (s s' : RunState)
    (f1 f2 : InputFile) (img1 img2 : DecodedImage)
    (hdec2 : f2.decoded = some img2)
    (hpix : img2.pixels = img1.pixels)
    (hacc : evalFile s.hashes f1 = .ok (.accepted img1))
    (hstep : processFile w s f1 = .ok s')
    (hext : extensionOk f2.name = true)
    (hsize : ¬ f2.size > 250000)
    (hmode : (img2.mode == "RGB" || img2.mode == "L") = true)
    (hwidth : ¬ img2.width < 100)
    (hheight : ¬ img2.height < 100)
    (hvar : uniformPixels img2 = false) :
    evalFile s'.hashes f2 = .ok (.rejected 6) := by
  have hhash : s'.hashes = s.hashes ++ [contentHash img1] := by
    unfold processFile at hstep
    rw [hacc] at hstep
    simp only [Except.ok.injEq] at hstep
    subst hstep
    rfl
  have hmem : contentHash img2 ∈ s'.hashes := by
    rw [hhash]
    simp [contentHash, hpix]
  unfold evalFile
  rw [hdec2]
  simp [hext, hsize, hmode, hwidth, hheight, hvar, hmem]

/-- Witness for C6: `fileCopy` has the pixel buffer of `fileCat` but a
different name (`copy2.jpeg`), size and file bytes; after `fileCat` is
accepted, `fileCopy` is rejected with reason 6. -/
theorem pixel_identical_copy_rejected_as_duplicate_witness :
    fileCopy.decoded = some imgCopy ∧
    imgCopy.pixels = imgCat.pixels ∧
    evalFile readyState.hashes fileCat = .ok (.accepted imgCat) ∧
    processFile 7 readyState fileCat = .ok stateAfterCat ∧
    extensionOk fileCopy.name = true ∧
    ¬ fileCopy.size > 250000 ∧
    (imgCopy.mode == "RGB" || imgCopy.mode == "L") = true ∧
    ¬ imgCopy.width < 100 ∧
    ¬ imgCopy.height < 100 ∧
    uniformPixels imgCopy = false ∧
    evalFile stateAfterCat.hashes fileCopy = .ok (.rejected 6) :=
  ⟨by decide, by decide, by decide, by decide, by decide, by decide, by decide,
    by decide, by decide, by decide,
    pixel_identical_copy_rejected_as_duplicate 7 readyState stateAfterCat
      fileCat fileCopy imgCat imgCopy (by decide) (by decide) (by decide) (by decide)
      (by decide) (by decide) (by decide) (by decide) (by decide) (by decide)⟩

/-- Claim C7: in any completed run every scanned file got exactly one
verdict and exactly one action, so the number of rejection-log lines plus
the accepted count equals the total number of files the walk produced. -/
theorem every_file_accounted_once (b : Bool) (walk : List (List InputFile)) (w : Nat)
    (s : RunState) (h : validate_images b walk w = .ok s) :
    s.log.length + s.count = (walk.map List.length).sum := by
  obtain ⟨-, hrun⟩ := validate_images_ok_inv b walk w s h
  have hacc := processFiles_accounting w _ _ _ hrun
  have hlen : ((walk.map sortFiles).flatten).length = (walk.map List.length).sum := by
    rw [List.length_flatten, List.map_map]
    congr 1
    apply List.map_congr_left
    intro d hd
    exact (List.perm_insertionSort pathLe d).length_eq
  simp only [readyState, initState, List.length_nil] at hacc
  omega

/-- Witness for C7: a run over two directories with three files — two
accepted, one rejected — satisfies `1 + 2 = 3`. -/
theorem every_file_accounted_once_witness :
    validate_images true [[fileNum, fileCat], [filePng]] 7 = .ok stateTwoAccepted ∧
    stateTwoAccepted.log.length + stateTwoAccepted.count =
      (([[fileNum, fileCat], [filePng]]).map List.length).sum :=
  ⟨by decide, every_file_accounted_once true [[fileNum, fileCat], [filePng]] 7
    stateTwoAccepted (by decide)⟩

/-- Claim C8: when `os.path.isdir(input_dir)` is false the run raises the
`ValueError` of line 14 immediately, in the pristine state: the output
directory has not been created, the log file has not been created or
truncated, the CSV header has not been written, and no output, row or log
line exists. -/
theorem invalid_input_root_aborts_before_artifacts (walk : List (List InputFile)) (w : Nat) :
    validate_images false walk w = .error (.configError, initState) ∧
    initState.outputDirPrepared = false ∧
    initState.logFileReset = false ∧
    initState.csvHeaderWritten = false ∧
    initState.outputs = [] ∧
    initState.rows = [] ∧
    initState.log = [] :=
  ⟨rfl, rfl, rfl, rfl, rfl, rfl, rfl⟩

/-- Claim C9: in any completed run, the `labels.csv` labels are, in order,
exactly the labels derived from the accepted files' names: the portion of
the filename before the first `.`, restricted to its alphabetic characters,
lowercased (possibly empty, which is not an error). -/
theorem labels_are_lowercased_alpha_of_stem (b : Bool) (walk : List (List InputFile))
    (w : Nat) (s : RunState) (h : validate_images b walk w = .ok s) :
    s.rows.map Prod.snd =
      s.acceptedFiles.map (fun f =>
        String.mk (((f.name.data.takeWhile (fun c => c != '.')).filter
          Char.isAlpha).map Char.toLower)) := by
  obtain ⟨-, hrun⟩ := validate_images_ok_inv b walk w s h
  obtain ⟨-, -, -, -, -, -, h7⟩ := processFiles_inv w _ _ _ hrun (inv_readyState w)
  exact h7

/-- Witness for C9: `123.jpg` (no alphabetic character in the stem) is
accepted with the empty label, `cat1.jpg` with label `cat`. -/
theorem labels_are_lowercased_alpha_of_stem_witness :
    validate_images true [[fileNum, fileCat], [filePng]] 7 = .ok stateTwoAccepted ∧
    stateTwoAccepted.rows.map Prod.snd =
      stateTwoAccepted.acceptedFiles.map (fun f =>
        String.mk (((f.name.data.takeWhile (fun c => c != '.')).filter
          Char.isAlpha).map Char.toLower)) :=
  ⟨by decide, labels_are_lowercased_alpha_of_stem true [[fileNum, fileCat], [filePng]] 7
    stateTwoAccepted (by decide)⟩

/-- Claim C10: starting from any state whose dedup set has one (distinct)
entry per accepted file — in particular the pipeline's initial state —
processing any list of files preserves that: a hash is appended exactly
when a file is accepted, rejected files (including duplicates) add nothing,
the set only grows, and the accepted images' hashes stay pairwise
distinct. Because this holds for every file list, it holds for every
intermediate state of a run. -/
theorem dedup_index_size_equals_accepted_count (w : Nat) (fs : List InputFile)
    (s s' : RunState) (hrun : processFiles w s fs = .ok s')
    (hlen : s.hashes.length = s.count) (hnd : s.hashes.Nodup) :
    s'.hashes.length = s'.count ∧ s'.hashes.Nodup ∧ s.hashes <+: s'.hashes := by
  have hpre := processFiles_hashes_grow w fs s s' hrun
  suffices hmain : s'.hashes.length = s'.count ∧ s'.hashes.Nodup from
    ⟨hmain.1, hmain.2, hpre⟩
  clear hpre
  induction fs generalizing s with
  | nil =>
    simp only [processFiles, Except.ok.injEq] at hrun
    subst hrun
    exact ⟨hlen, hnd⟩
  | cons f fs ih =>
    unfold processFiles at hrun
    cases hstep : processFile w s f with
    | error e => rw [hstep] at hrun; simp at hrun
    | ok s1 =>
      rw [hstep] at hrun
      obtain ⟨hlen1, hnd1⟩ := processFile_hash_step w s f s1 hstep hlen hnd
      exact ih s1 hrun hlen1 hnd1

/-- Witness for C10: accepting `fileCat` and then rejecting its pixel-wise
duplicate `fileCopy` leaves one hash for one accepted file. -/
theorem dedup_index_size_equals_accepted_count_witness :
    processFiles 7 readyState [fileCat, fileCopy] = .ok stateCatThenCopy ∧
    readyState.hashes.length = readyState.count ∧
    readyState.hashes.Nodup ∧
    (stateCatThenCopy.hashes.length = stateCatThenCopy.count ∧
      stateCatThenCopy.hashes.Nodup ∧
      readyState.hashes <+: stateCatThenCopy.hashes) :=
  ⟨by decide, by decide, by decide,
    dedup_index_size_equals_accepted_count 7 [fileCat, fileCopy] readyState
      stateCatThenCopy (by decide) (by decide) (by decide)⟩

end ImageValidation
